import Mathlib

/-!
Verification of the todo-app chat subsystem (feature 004-ai-chat-agent).

Shallow embedding of:
- the Conversation/Message data model and the query-pattern functions
  (`create_conversation`, `add_message`, `get_conversation_messages`,
  `get_user_conversations`, `verify_conversation_ownership`) from
  specs/004-ai-chat-agent/data-model.md;
- the turn orchestration `handle_chat` from
  specs/004-ai-chat-agent/research.md (Research Item 5);
- the MCP tool layer (modelled from the spec, the tool implementations are
  not part of the repository snapshot);
- the frontend `ChatInput` and chat-page send logic
  (frontend/components/chat/ChatInput.tsx, frontend/app/dashboard/chat/page.tsx).

Timestamps and identifiers are modelled as natural numbers; JSON payloads of
tool inputs are modelled as association lists from field names to string
values.
-/

namespace TodoChat

/-- Message role enum from data-model.md: 'user', 'assistant', 'tool'. -/
inductive Role where
  | user
  | assistant
  | tool
deriving DecidableEq

/-- Task entity (Phase II), fields as used by frontend/types and MCP tools:
id, owner, title, optional description, completion flag, creation time. -/
structure Task where
  id : Nat
  user_id : String
  title : String
  description : Option String
  completed : Bool
  created_at : Nat
deriving DecidableEq

/-- The fixed tool catalogue, from frontend/types/chat.ts `ToolCall.tool`:
'add_task' | 'list_tasks' | 'complete_task' | 'delete_task' | 'update_task'. -/
inductive ToolName where
  | add_task
  | list_tasks
  | complete_task
  | delete_task
  | update_task
deriving DecidableEq

/-- A tool input payload: a JSON object modelled as an association list of
field name / value pairs (chat.ts: `input: Record<string, unknown>`). -/
abbrev ToolInput := List (String × String)

/-- Typed tool outcome (spec section 4.1: structured success payload or a
typed failure). -/
inductive ToolResult where
  | created (t : Task)
  | listed (ts : List Task)
  | completed (t : Task)
  | deleted (t : Task)
  | updated (t : Task)
  | notFound
  | validationFailed
deriving DecidableEq

/-- Tool invocation record embedded in an assistant message
(chat.ts `ToolCall`: tool, input, output). -/
structure ToolRecord where
  name : ToolName
  input : ToolInput
  output : ToolResult
deriving DecidableEq

/-- Conversation entity from data-model.md: id, user_id, title,
created_at, updated_at. -/
structure Conversation where
  id : Nat
  user_id : String
  title : Option String
  created_at : Nat
  updated_at : Nat
deriving DecidableEq

/-- Message entity from data-model.md: id, conversation_id, role, content,
tool_calls (nullable), created_at. -/
structure Message where
  id : Nat
  conversation_id : Nat
  role : Role
  content : String
  tool_calls : Option (List ToolRecord)
  created_at : Nat
deriving DecidableEq

/-- The two persisted tables (data-model.md migration: `conversations`,
`messages`).  Lists are in insertion order; per the data-model invariant
messages are totally ordered by `created_at` with insertion order as
tie-break, so list order of `messages` is chronological storage order. -/
structure ChatStore where
  conversations : List Conversation
  messages : List Message
deriving DecidableEq

/-- Primitive database actions performed by a store operation inside one
session, used to record what `add_message` does and when it commits. -/
inductive DBAction where
  | insertMessage (m : Message)
  | readConversation (conversation_id : Nat)
  | writeUpdatedAt (conversation_id : Nat) (t : Nat)
  | commit
deriving DecidableEq

def isCommit : DBAction → Bool
  | .commit => true
  | _ => false

def isWriteUpdatedAt : DBAction → Bool
  | .writeUpdatedAt _ _ => true
  | _ => false

/-- True when the action trace reads the conversation row and later writes
its recency marker: a read-modify-write of the `updated_at` column. -/
def readThenWritesMarker : List DBAction → Bool
  | [] => false
  | .readConversation _ :: rest => rest.any isWriteUpdatedAt || readThenWritesMarker rest
  | _ :: rest => readThenWritesMarker rest

/-- Result of `add_message`: the persisted message, the post-commit store,
and the trace of session-level actions in program order. -/
structure AddResult where
  message : Message
  store : ChatStore
  trace : List DBAction
deriving DecidableEq

/-- data-model.md Query Pattern 4 `create_conversation`: insert a new
conversation row for the user and commit. -/
def create_conversation (store : ChatStore) (user_id : String)
    (title : Option String) (newId now : Nat) : Conversation × ChatStore :=
  let c : Conversation :=
    { id := newId, user_id := user_id, title := title
      created_at := now, updated_at := now }
  (c, { store with conversations := store.conversations ++ [c] })

/-- data-model.md Query Pattern 3 `add_message`: build the Message row and
stage its insert (`session.add(message)`), then fetch the parent
conversation (`session.get(Conversation, conversation_id)`), and if it
exists reassign its `updated_at` to the current time (`conversation.updated_at
= datetime.utcnow(); session.add(conversation)`); a single `session.commit()`
then publishes all staged changes.  The trace records those session actions
in program order, with the one commit at the end. -/
def add_message (store : ChatStore) (conversation_id : Nat) (role : Role)
    (content : String) (tool_calls : Option (List ToolRecord))
    (newId now : Nat) : AddResult :=
  let message : Message :=
    { id := newId, conversation_id := conversation_id, role := role
      content := content, tool_calls := tool_calls, created_at := now }
  match store.conversations.find? (fun c => c.id == conversation_id) with
  | some _ =>
    { message := message
      store :=
        { conversations :=
            store.conversations.map
              (fun c => if c.id == conversation_id then { c with updated_at := now } else c)
          messages := store.messages ++ [message] }
      trace :=
        [.insertMessage message, .readConversation conversation_id,
         .writeUpdatedAt conversation_id now, .commit] }
  | none =>
    { message := message
      store := { store with messages := store.messages ++ [message] }
      trace := [.insertMessage message, .readConversation conversation_id, .commit] }

/-- data-model.md Query Pattern 2 `get_conversation_messages`: select the
conversation's messages ordered by `created_at` descending (on the
chronologically stored list this is `reverse`), apply `LIMIT limit`, and
reverse back into chronological order. -/
def get_conversation_messages (store : ChatStore) (conversation_id : Nat)
    (limit : Nat) : List Message :=
  (((store.messages.filter (fun m => m.conversation_id == conversation_id)).reverse).take limit).reverse

/-- Insert a conversation into a list sorted by `updated_at` descending. -/
def insertByRecency (c : Conversation) : List Conversation → List Conversation
  | [] => [c]
  | d :: rest =>
    if d.updated_at ≤ c.updated_at then c :: d :: rest else d :: insertByRecency c rest

/-- Sort conversations by `updated_at` descending (ORDER BY updated_at DESC). -/
def sortByRecency : List Conversation → List Conversation
  | [] => []
  | c :: rest => insertByRecency c (sortByRecency rest)

/-- data-model.md Query Pattern 1 `get_user_conversations`: select the
user's conversations ordered by most recent activity. -/
def get_user_conversations (store : ChatStore) (user_id : String) : List Conversation :=
  sortByRecency (store.conversations.filter (fun c => c.user_id == user_id))

/-- Store-operation form of `get_user_conversations`: the Python function
receives the session and runs only a SELECT, so the resulting store is the
input store. -/
def get_user_conversations_op (store : ChatStore) (user_id : String) :
    List Conversation × ChatStore :=
  (get_user_conversations store user_id, store)

/-- Store-operation form of `get_conversation_messages`: SELECT only, the
store is returned unchanged. -/
def get_conversation_messages_op (store : ChatStore) (conversation_id : Nat)
    (limit : Nat) : List Message × ChatStore :=
  (get_conversation_messages store conversation_id limit, store)

/-- data-model.md Ownership Verification `verify_conversation_ownership`:
`conversation = session.get(Conversation, conversation_id);
 return conversation and conversation.user_id == user_id` — a missing
conversation and a conversation owned by someone else both yield False. -/
def verify_conversation_ownership (store : ChatStore) (conversation_id : Nat)
    (user_id : String) : Bool :=
  match store.conversations.find? (fun c => c.id == conversation_id) with
  | some c => c.user_id == user_id
  | none => false

/-! ## Tool Registry

Modelled from the spec: the MCP tool implementations (`backend/src/mcp/tools.py`)
are not part of the repository snapshot; the declared input fields follow the
sketches in research.md Research Item 2 (`add_task(title, description)`,
`list_tasks(filter)`) and spec section 4.1 (lookup-by-description tools take a
task description), and per Research Item 2 the tools do not accept `user_id`
as a parameter — the acting identity is injected from the verified caller. -/

/-- Modelled from the spec: declared input schema (field names) per tool.
No tool declares a user-identity field. -/
def declaredFields : ToolName → List String
  | .add_task => ["title", "description"]
  | .list_tasks => ["filter"]
  | .complete_task => ["description"]
  | .delete_task => ["description"]
  | .update_task => ["description", "title"]

/-- Read one field of a tool input payload. -/
def getField (input : ToolInput) (key : String) : Option String :=
  (input.find? (fun kv => kv.1 == key)).map (fun kv => kv.2)

/-- Deterministic fresh task identifier: one more than the largest id in use. -/
def freshTaskId (tasks : List Task) : Nat :=
  tasks.foldr (fun t acc => Nat.max (t.id + 1) acc) 0

/-- Case-insensitive title equality (exact match stage of the lookup policy). -/
def lowerEq (a b : String) : Bool :=
  a.toLower == b.toLower

/-- Lower-cased words of a string (split on spaces, empty fragments dropped). -/
def wordsOf (s : String) : List String :=
  (s.toLower.splitOn " ").filter (fun w => w != "")

/-- Modelled from the spec: a concrete similarity metric for the
lookup-by-description tools (spec section 9 records the metric as an open
question for the implementer): the number of words of the candidate title
that also occur in the description, case-insensitively. -/
def simScore (desc title : String) : Nat :=
  ((wordsOf title).filter (fun w => (wordsOf desc).contains w)).length

/-- Modelled from the spec: the fixed similarity threshold (at least one
shared word). -/
def fuzzyThreshold : Nat := 1

/-- Modelled from the spec (section 4.1), fuzzy stage: among the candidates
whose similarity reaches the fixed threshold, choose the single task
attaining the best score; if none reaches the threshold or several tie for
best, choose nothing. -/
def bestFuzzy (desc : String) (tasks : List Task) : Option Task :=
  let cands := tasks.filter (fun t => decide (fuzzyThreshold ≤ simScore desc t.title))
  let best := (cands.map (fun t => simScore desc t.title)).foldr Nat.max 0
  match cands.filter (fun t => simScore desc t.title == best) with
  | [t] => some t
  | _ => none

/-- Modelled from the spec (section 4.1): deterministic matching policy for
complete/delete "the X task" — exact case-insensitive title match first;
otherwise the single best fuzzy match at or above the fixed threshold; if no
candidate reaches the threshold or several tie for best, no task is chosen. -/
def matchTask (desc : String) (tasks : List Task) : Option Task :=
  match tasks.filter (fun t => lowerEq t.title desc) with
  | t :: _ => some t
  | [] => bestFuzzy desc tasks

/-- Mark the caller's task with the given id as completed. -/
def applyComplete (owner : String) (tid : Nat) (tasks : List Task) : List Task :=
  tasks.map (fun x =>
    if x.id == tid && x.user_id == owner then { x with completed := true } else x)

/-- Retitle the caller's task with the given id. -/
def applyRetitle (owner : String) (tid : Nat) (newTitle : String)
    (tasks : List Task) : List Task :=
  tasks.map (fun x =>
    if x.id == tid && x.user_id == owner then { x with title := newTitle } else x)

/-- Modelled from the spec: tool dispatch.  Every tool reads only its
declared input fields, the acting user identity is the `callerId` argument
injected by the orchestrator, and each data access is scoped to the caller's
own tasks.  Unknown fields of the input payload are ignored (spec section 8:
a forged user id inside the payload is ignored/overridden). -/
def executeTool (callerId : String) (name : ToolName) (input : ToolInput)
    (tasks : List Task) (now : Nat) : ToolResult × List Task :=
  match name with
  | .add_task =>
    match getField input "title" with
    | none => (.validationFailed, tasks)
    | some title =>
      let t : Task :=
        { id := freshTaskId tasks, user_id := callerId, title := title
          description := getField input "description", completed := false
          created_at := now }
      (.created t, tasks ++ [t])
  | .list_tasks =>
    let mine := tasks.filter (fun t => t.user_id == callerId)
    let f := (getField input "filter").getD "all"
    let out :=
      if f == "pending" then mine.filter (fun t => !t.completed)
      else if f == "completed" then mine.filter (fun t => t.completed)
      else mine
    (.listed out, tasks)
  | .complete_task =>
    match getField input "description" with
    | none => (.validationFailed, tasks)
    | some d =>
      match matchTask d (tasks.filter (fun t => t.user_id == callerId)) with
      | none => (.notFound, tasks)
      | some t => (.completed { t with completed := true }, applyComplete callerId t.id tasks)
  | .delete_task =>
    match getField input "description" with
    | none => (.validationFailed, tasks)
    | some d =>
      match matchTask d (tasks.filter (fun t => t.user_id == callerId)) with
      | none => (.notFound, tasks)
      | some t => (.deleted t, tasks.filter (fun x => !(x.id == t.id && x.user_id == callerId)))
  | .update_task =>
    match getField input "description" with
    | none => (.validationFailed, tasks)
    | some d =>
      match matchTask d (tasks.filter (fun t => t.user_id == callerId)) with
      | none => (.notFound, tasks)
      | some t =>
        let newTitle := (getField input "title").getD t.title
        (.updated { t with title := newTitle }, applyRetitle callerId t.id newTitle tasks)

/-! ## Turn Orchestrator

Embedding of `handle_chat` from research.md Research Item 5, steps 1-6:
resolve or create the conversation, load the recent-message context window,
persist the user's message, run the agent on the context, persist the
assistant response with its tool calls, and return the response.

Modelled from the spec: the reasoning step itself is external (OpenAI Agents
SDK); its outcome is an input of the embedding.  The Timeout /
InvalidResponse handling (spec sections 4.5 and 7: the failure is caught and
converted into an assistant message with a fixed apologetic failure notice,
still persisted) is not shown in the research.md sketch and is modelled from
the spec, as is conversation resolution through
`verify_conversation_ownership` with the anti-enumeration "not found"
outcome. -/

/-- Outcome of the external reasoning capability for one turn. -/
inductive AgentOutcome where
  | ok (content : String) (requests : List (ToolName × ToolInput))
  | timeout
  | invalidResponse
deriving DecidableEq

/-- Observable step events of one turn, in the order the orchestrator
performs them. -/
inductive TurnEvent where
  | loadContext
  | persistUserMessage
  | invokeReasoning (window : List Message)
  | executedTool (name : ToolName) (acting_user : String)
  | persistAssistantMessage
deriving DecidableEq

/-- Caller-visible result of a turn: conversation id, assistant message and
tool-call summary on success, or the anti-enumeration "not found" outcome. -/
inductive ChatResult where
  | success (conversation_id : Nat) (assistant : Message) (tool_calls : List ToolRecord)
  | notFound
deriving DecidableEq

/-- Full outcome of one turn: caller-visible result, post-turn stores, and
the event trace. -/
structure TurnOutput where
  result : ChatResult
  store : ChatStore
  tasks : List Task
  events : List TurnEvent
deriving DecidableEq

/-- Modelled from the spec: a fixed apologetic failure notice used as the
assistant content when the reasoning step fails (spec section 4.5). -/
def apologyNotice : String :=
  "Sorry, something went wrong while processing your message. Please try again."

/-- Context window size: last 20 messages (research.md Research Item 3). -/
def contextWindowSize : Nat := 20

/-- Execute the requested tool invocations in order with the
orchestrator-injected caller identity, collecting a record per call
(spec section 4.5 step 5; a failed call is recorded, not retried). -/
def runTools (callerId : String) (reqs : List (ToolName × ToolInput))
    (tasks : List Task) (now : Nat) : List ToolRecord × List Task :=
  match reqs with
  | [] => ([], tasks)
  | (n, i) :: rest =>
    let (r, tasks') := executeTool callerId n i tasks now
    let (recs, tasks'') := runTools callerId rest tasks' now
    ({ name := n, input := i, output := r } :: recs, tasks'')

/-- One chat turn (research.md `handle_chat` steps 1-6).  `outcome` is the
external reasoning result for this turn; `newConvId`, `userMsgId`,
`assistantMsgId` are the identifiers the storage layer assigns. -/
def handleChat (store : ChatStore) (tasks : List Task) (callerId : String)
    (text : String) (conversationId? : Option Nat) (outcome : AgentOutcome)
    (newConvId userMsgId assistantMsgId now : Nat) : TurnOutput :=
  -- step 1: resolve the conversation scoped to the caller, or create one
  let resolved : Option (Nat × ChatStore) :=
    match conversationId? with
    | some cid =>
      if verify_conversation_ownership store cid callerId then some (cid, store)
      else none
    | none =>
      let (c, store') := create_conversation store callerId none newConvId now
      some (c.id, store')
  match resolved with
  | none => { result := .notFound, store := store, tasks := tasks, events := [] }
  | some (cid, store1) =>
    -- step 2: load the context window (read-only, before the new message is stored)
    let window := get_conversation_messages store1 cid contextWindowSize
    -- step 3: persist the user's message (append-first)
    let r3 := add_message store1 cid .user text none userMsgId now
    -- step 4: run the agent with the context
    match outcome with
    | .ok content reqs =>
      -- step 5: execute requested tools with the injected caller identity
      let (records, tasks') := runTools callerId reqs tasks now
      -- step 6: persist the assistant response with tool records
      let r6 := add_message r3.store cid .assistant content (some records) assistantMsgId now
      { result := .success cid r6.message records
        store := r6.store
        tasks := tasks'
        events :=
          [.loadContext, .persistUserMessage, .invokeReasoning window]
            ++ records.map (fun rec => .executedTool rec.name callerId)
            ++ [.persistAssistantMessage] }
    | .timeout =>
      let r6 := add_message r3.store cid .assistant apologyNotice none assistantMsgId now
      { result := .success cid r6.message []
        store := r6.store
        tasks := tasks
        events := [.loadContext, .persistUserMessage, .invokeReasoning window,
                   .persistAssistantMessage] }
    | .invalidResponse =>
      let r6 := add_message r3.store cid .assistant apologyNotice none assistantMsgId now
      { result := .success cid r6.message []
        store := r6.store
        tasks := tasks
        events := [.loadContext, .persistUserMessage, .invokeReasoning window,
                   .persistAssistantMessage] }

/-! ## Invariant predicates -/

/-- The messages of one conversation in storage order. -/
def convMessages (store : ChatStore) (conversation_id : Nat) : List Message :=
  store.messages.filter (fun m => m.conversation_id == conversation_id)

/-- Turn-pairing: every user message is immediately followed by an assistant
message. -/
def userPaired : List Message → Bool
  | [] => true
  | [m] => decide (m.role ≠ .user)
  | m :: n :: rest =>
    (decide (m.role ≠ .user) || decide (n.role = .assistant)) && userPaired (n :: rest)

/-- Chronological ordering of a message list by creation time. -/
def chronOrdered : List Message → Bool
  | [] => true
  | [_] => true
  | a :: b :: rest => decide (a.created_at ≤ b.created_at) && chronOrdered (b :: rest)

/-! ## Frontend: ChatInput (frontend/components/chat/ChatInput.tsx)

Message text is modelled as a list of characters so that the JavaScript
string operations `slice`, `trim` and `length` have direct counterparts. -/

/-- The fixed character limit of the chat input (`maxLength={2000}`,
`slice(0, 2000)`). -/
def chatInputLimit : Nat := 2000

/-- ChatInput onChange handler: `setMessage(e.target.value.slice(0, 2000))` —
the stored field value is the typed value truncated to the first 2000
characters. -/
def storedMessage (typed : List Char) : List Char :=
  typed.take chatInputLimit

/-- JavaScript `String.prototype.trim`: strip leading and trailing
whitespace. -/
def jsTrim (s : List Char) : List Char :=
  ((s.dropWhile Char.isWhitespace).reverse.dropWhile Char.isWhitespace).reverse

/-- ChatInput `handleSubmit`: trim the field value; if the trimmed message is
non-empty and the input is neither loading nor disabled, send it (`onSend`),
otherwise send nothing. -/
def handleSubmit (message : List Char) (isLoading disabled : Bool) :
    Option (List Char) :=
  let trimmedMessage := jsTrim message
  if !trimmedMessage.isEmpty && !isLoading && !disabled then some trimmedMessage
  else none

/-! ## Frontend: chat page send flow
(frontend/app/dashboard/chat/page.tsx `handleSendMessage`, identical logic in
frontend/components/chat/ChatContainer.tsx) -/

/-- Frontend message entity (frontend/types/chat.ts `Message`): string id,
role, content, creation time.  Tool calls are irrelevant to the displayed
list transitions and omitted. -/
structure FMessage where
  id : String
  role : Role
  content : String
  created_at : Nat
deriving DecidableEq

/-- Optimistic append of the provisional user message:
`setMessages((prev) => [...prev, tempUserMessage])`. -/
def optimisticAppend (prev : List FMessage) (temp : FMessage) : List FMessage :=
  prev ++ [temp]

/-- Success path: `prev.filter((m) => m.id !== tempUserMessage.id)` followed
by appending the final user message and the returned assistant message. -/
def onSendSuccess (cur : List FMessage) (tempId : String)
    (finalUser assistantMsg : FMessage) : List FMessage :=
  cur.filter (fun m => m.id != tempId) ++ [finalUser, assistantMsg]

/-- Error path: `setMessages((prev) => prev.filter((m) => m.id !==
tempUserMessage.id))` — remove the provisional message. -/
def onSendError (cur : List FMessage) (tempId : String) : List FMessage :=
  cur.filter (fun m => m.id != tempId)

/-! ## Helper lemmas -/

theorem chronOrdered_tail (a : Message) (l : List Message)
    (h : chronOrdered (a :: l) = true) : chronOrdered l = true := by
  cases l with
  | nil => rfl
  | cons b rest =>
    simp only [chronOrdered, Bool.and_eq_true] at h
    exact h.2

theorem chronOrdered_drop : ∀ (k : Nat) (l : List Message),
    chronOrdered l = true → chronOrdered (l.drop k) = true
  | 0, _, h => h
  | _ + 1, [], _ => rfl
  | k + 1, a :: l, h => chronOrdered_drop k l (chronOrdered_tail a l h)

theorem userPaired_append_pair (u a : Message) (hu : u.role = .user)
    (ha : a.role = .assistant) :
    ∀ l, userPaired l = true → userPaired (l ++ [u, a]) = true
  | [], _ => by simp [userPaired, ha]
  | [m], h => by
    simp only [userPaired, decide_eq_true_eq] at h
    simp [userPaired, h, ha]
  | m :: n :: rest, h => by
    simp only [userPaired, Bool.and_eq_true] at h
    have ih := userPaired_append_pair u a hu ha (n :: rest) h.2
    simp only [List.cons_append] at ih ⊢
    simp only [userPaired, Bool.and_eq_true]
    exact ⟨h.1, ih⟩

theorem userPaired_filter_append (msgs : List Message) (u a : Message) (c : Nat)
    (hu : u.role = .user) (ha : a.role = .assistant)
    (hsame : u.conversation_id = a.conversation_id)
    (h : userPaired (msgs.filter (fun m => m.conversation_id == c)) = true) :
    userPaired ((msgs ++ [u, a]).filter (fun m => m.conversation_id == c)) = true := by
  rw [List.filter_append]
  by_cases hc : u.conversation_id = c
  · have hca : a.conversation_id = c := hsame ▸ hc
    have hfa : ([u, a].filter (fun m => m.conversation_id == c)) = [u, a] := by
      simp [List.filter_cons, hc, hca]
    rw [hfa]
    exact userPaired_append_pair u a hu ha _ h
  · have hca : a.conversation_id ≠ c := fun hh => hc (hsame ▸ hh)
    have hfa : ([u, a].filter (fun m => m.conversation_id == c)) = [] := by
      simp [List.filter_cons, hc, hca]
    rw [hfa, List.append_nil]
    exact h

theorem add_message_store_messages (store : ChatStore) (cid : Nat) (role : Role)
    (content : String) (tc : Option (List ToolRecord)) (nid now : Nat) :
    (add_message store cid role content tc nid now).store.messages =
      store.messages ++ [(add_message store cid role content tc nid now).message] := by
  unfold add_message
  cases store.conversations.find? (fun c => c.id == cid) <;> rfl

theorem add_message_message (store : ChatStore) (cid : Nat) (role : Role)
    (content : String) (tc : Option (List ToolRecord)) (nid now : Nat) :
    (add_message store cid role content tc nid now).message =
      { id := nid, conversation_id := cid, role := role, content := content,
        tool_calls := tc, created_at := now } := by
  unfold add_message
  cases store.conversations.find? (fun c => c.id == cid) <;> rfl

theorem mem_get_conversation_messages {m : Message} {s : ChatStore}
    {cid lim : Nat} (hm : m ∈ get_conversation_messages s cid lim) :
    m ∈ s.messages := by
  unfold get_conversation_messages at hm
  rw [List.mem_reverse] at hm
  have h2 := List.take_subset _ _ hm
  rw [List.mem_reverse] at h2
  exact (List.mem_filter.mp h2).1

theorem double_add_user_mem (store1 : ChatStore) (cid : Nat) (text : String)
    (n2 n3 now : Nat) (content2 : String) (tc2 : Option (List ToolRecord)) :
    ({ id := n2, conversation_id := cid, role := .user, content := text,
       tool_calls := none, created_at := now } : Message) ∈
      (add_message (add_message store1 cid .user text none n2 now).store cid
        .assistant content2 tc2 n3 now).store.messages := by
  rw [add_message_store_messages, add_message_store_messages, add_message_message]
  simp [List.mem_append]

/-! ## Theorems -/

/-- C4: the Context Builder output is a chronologically ordered slice of the
conversation's messages of length at most the configured window, equal to the
suffix of the most recent messages (so truncation drops the oldest first),
and of length exactly the window size when the conversation holds more
messages than the window. -/
theorem context_window (store : ChatStore) (cid limit : Nat)
    (hchron : chronOrdered (convMessages store cid) = true) :
    (get_conversation_messages store cid limit).length ≤ limit ∧
    get_conversation_messages store cid limit =
      (convMessages store cid).drop ((convMessages store cid).length - limit) ∧
    chronOrdered (get_conversation_messages store cid limit) = true ∧
    (limit < (convMessages store cid).length →
      (get_conversation_messages store cid limit).length = limit) := by
  have heq : get_conversation_messages store cid limit =
      (convMessages store cid).drop ((convMessages store cid).length - limit) := by
    unfold get_conversation_messages convMessages
    rw [List.take_reverse, List.reverse_reverse]
  refine ⟨?_, heq, ?_, ?_⟩
  · rw [heq, List.length_drop]
    omega
  · rw [heq]
    exact chronOrdered_drop _ _ hchron
  · intro h
    rw [heq, List.length_drop]
    omega

/-- C4 witness: a conversation with three messages and another with one; a
window of size 2 keeps exactly the two most recent messages of the requested
conversation, chronologically ordered. -/
theorem context_window_witness :
    (let m1 : Message := { id := 1, conversation_id := 1, role := .user,
                           content := "a", tool_calls := none, created_at := 1 }
     let m2 : Message := { id := 2, conversation_id := 1, role := .assistant,
                           content := "b", tool_calls := none, created_at := 2 }
     let m3 : Message := { id := 3, conversation_id := 2, role := .user,
                           content := "c", tool_calls := none, created_at := 3 }
     let m4 : Message := { id := 4, conversation_id := 1, role := .user,
                           content := "d", tool_calls := none, created_at := 4 }
     let store : ChatStore := { conversations := [], messages := [m1, m2, m3, m4] }
     chronOrdered (convMessages store 1) = true ∧
     (get_conversation_messages store 1 2).length ≤ 2 ∧
     get_conversation_messages store 1 2 =
       (convMessages store 1).drop ((convMessages store 1).length - 2) ∧
     chronOrdered (get_conversation_messages store 1 2) = true ∧
     (2 < (convMessages store 1).length →
       (get_conversation_messages store 1 2).length = 2)) := by
  exact ⟨by decide, context_window _ 1 2 (by decide)⟩

/-- C1: turn-pairing — if every persisted user message of every conversation
is immediately followed by an assistant message, then after any chat turn
(including turns whose reasoning step fails with Timeout or InvalidResponse)
this still holds; moreover a failed turn still persists an assistant message
whose content is the fixed apologetic failure notice right after the user
message. -/
theorem turn_pairing (store : ChatStore) (tasks : List Task) (uid text : String)
    (cid? : Option Nat) (outcome : AgentOutcome) (n1 n2 n3 now : Nat)
    (h : ∀ c, userPaired (convMessages store c) = true) :
    (∀ c, userPaired
      (convMessages (handleChat store tasks uid text cid? outcome n1 n2 n3 now).store c) = true) ∧
    (handleChat store tasks uid text none .timeout n1 n2 n3 now).store.messages =
      store.messages ++
        [{ id := n2, conversation_id := n1, role := .user, content := text,
           tool_calls := none, created_at := now },
         { id := n3, conversation_id := n1, role := .assistant,
           content := apologyNotice, tool_calls := none, created_at := now }] := by
  constructor
  · -- the pairing invariant is preserved by every branch of the turn
    unfold handleChat
    have step : ∀ (store1 : ChatStore) (cid : Nat) (content2 : String)
        (tc2 : Option (List ToolRecord)),
        store1.messages = store.messages →
        ∀ c, userPaired (convMessages
          ((add_message (add_message store1 cid .user text none n2 now).store cid
            .assistant content2 tc2 n3 now).store) c) = true := by
      intro store1 cid content2 tc2 hmsgs c
      unfold convMessages
      rw [add_message_store_messages, add_message_store_messages, add_message_message,
        add_message_message, hmsgs, List.append_assoc]
      simp only [List.singleton_append]
      exact userPaired_filter_append store.messages _ _ c rfl rfl rfl (h c)
    cases cid? with
    | some cid =>
      by_cases hv : verify_conversation_ownership store cid uid = true
      · simp only [hv, if_true]
        cases outcome with
        | ok content reqs =>
          simp only []
          intro c
          exact step store cid content _ rfl c
        | timeout => exact step store cid apologyNotice none rfl
        | invalidResponse => exact step store cid apologyNotice none rfl
      · simp only [Bool.not_eq_true] at hv
        simp only [hv, Bool.false_eq_true, if_false]
        exact h
    | none =>
      cases outcome with
      | ok content reqs => exact step { store with conversations := store.conversations ++ [_] } n1 content _ rfl
      | timeout => exact step { store with conversations := store.conversations ++ [_] } n1 apologyNotice none rfl
      | invalidResponse => exact step { store with conversations := store.conversations ++ [_] } n1 apologyNotice none rfl
  · -- a Timeout turn on a fresh conversation persists the user message and
    -- the apologetic assistant message
    unfold handleChat create_conversation
    simp only []
    rw [add_message_store_messages, add_message_store_messages, add_message_message,
      add_message_message]
    simp [List.append_assoc]

/-- C1 witness: starting from the empty store, a turn whose reasoning step
times out still leaves every user message paired with an assistant turn. -/
theorem turn_pairing_witness :
    userPaired (convMessages { conversations := [], messages := [] } 1) = true ∧
    userPaired (convMessages
      (handleChat { conversations := [], messages := [] } [] "alice" "hi" none
        .timeout 1 2 3 4).store 1) = true :=
  ⟨rfl, (turn_pairing { conversations := [], messages := [] } [] "alice" "hi" none
    .timeout 1 2 3 4 (fun _ => rfl)).1 1⟩

theorem invokeReasoning_window {w w0 : List Message} {mid : List TurnEvent}
    (hmid : ∀ e ∈ mid, ∀ w2, e ≠ TurnEvent.invokeReasoning w2)
    (h : TurnEvent.invokeReasoning w ∈
      [TurnEvent.loadContext, TurnEvent.persistUserMessage,
       TurnEvent.invokeReasoning w0] ++ mid ++ [TurnEvent.persistAssistantMessage]) :
    w = w0 := by
  rcases List.mem_append.mp h with h1 | h2
  · rcases List.mem_append.mp h1 with h3 | h4
    · rcases List.mem_cons.mp h3 with he | h3
      · exact absurd he (by simp)
      rcases List.mem_cons.mp h3 with he | h3
      · exact absurd he (by simp)
      rcases List.mem_cons.mp h3 with he | h3
      · injection he with h5
      · exact absurd h3 (List.not_mem_nil _)
    · exact absurd rfl (hmid _ h4 w)
  · rcases List.mem_cons.mp h2 with he | h2
    · exact absurd he (by simp)
    · exact absurd h2 (List.not_mem_nil _)

theorem invokeReasoning_window4 {w w0 : List Message}
    (h : TurnEvent.invokeReasoning w ∈
      [TurnEvent.loadContext, TurnEvent.persistUserMessage,
       TurnEvent.invokeReasoning w0, TurnEvent.persistAssistantMessage]) :
    w = w0 := by
  rcases List.mem_cons.mp h with he | h
  · exact absurd he (by simp)
  rcases List.mem_cons.mp h with he | h
  · exact absurd he (by simp)
  rcases List.mem_cons.mp h with he | h
  · injection he with h5
  rcases List.mem_cons.mp h with he | h
  · exact absurd he (by simp)
  · exact absurd h (List.not_mem_nil _)

theorem executedTool_not_invokeReasoning {records : List ToolRecord} {uid : String} :
    ∀ e ∈ records.map (fun rec => TurnEvent.executedTool rec.name uid),
      ∀ w2, e ≠ TurnEvent.invokeReasoning w2 := by
  intro e he w2 heq
  rcases List.mem_map.mp he with ⟨r, _, hre⟩
  rw [← hre] at heq
  exact TurnEvent.noConfusion heq

/-- C5: turn ordering — on every turn that passes conversation resolution,
the orchestrator loads the context window, then persists the user message,
and only then invokes reasoning (the first three events, in that order); the
window handed to reasoning never contains the current user message; and for
every reasoning outcome, including Timeout and InvalidResponse, the user
message is persisted in the final store, so a reasoning failure never loses
the user input. -/
theorem append_first_ordering (store : ChatStore) (tasks : List Task)
    (uid text : String) (cid? : Option Nat) (outcome : AgentOutcome)
    (n1 n2 n3 now : Nat)
    (hres : (match cid? with
             | none => true
             | some cid => verify_conversation_ownership store cid uid) = true)
    (hfresh : ∀ m ∈ store.messages, m.id ≠ n2) :
    (∃ w, (handleChat store tasks uid text cid? outcome n1 n2 n3 now).events.take 3 =
      [.loadContext, .persistUserMessage, .invokeReasoning w]) ∧
    (∀ w, TurnEvent.invokeReasoning w ∈
        (handleChat store tasks uid text cid? outcome n1 n2 n3 now).events →
      ∀ m ∈ w, m.id ≠ n2) ∧
    (∃ m ∈ (handleChat store tasks uid text cid? outcome n1 n2 n3 now).store.messages,
      m.id = n2 ∧ m.role = .user ∧ m.content = text) := by
  have hwin : ∀ (s1 : ChatStore) (cid : Nat), s1.messages = store.messages →
      ∀ m ∈ get_conversation_messages s1 cid contextWindowSize, m.id ≠ n2 := by
    intro s1 cid hs m hm
    apply hfresh
    rw [← hs]
    exact mem_get_conversation_messages hm
  cases cid? with
  | some cid =>
    have hv : verify_conversation_ownership store cid uid = true := hres
    unfold handleChat
    simp only [hv, if_true]
    cases outcome with
    | ok content reqs =>
      refine ⟨⟨_, rfl⟩, ?_, ?_⟩
      · intro w hw
        have hww := invokeReasoning_window executedTool_not_invokeReasoning hw
        rw [hww]
        exact hwin store cid rfl
      · exact ⟨_, double_add_user_mem store cid text n2 n3 now content _, rfl, rfl, rfl⟩
    | timeout =>
      refine ⟨⟨_, rfl⟩, ?_, ?_⟩
      · intro w hw
        have hww := invokeReasoning_window4 hw
        rw [hww]
        exact hwin store cid rfl
      · exact ⟨_, double_add_user_mem store cid text n2 n3 now apologyNotice none, rfl, rfl, rfl⟩
    | invalidResponse =>
      refine ⟨⟨_, rfl⟩, ?_, ?_⟩
      · intro w hw
        have hww := invokeReasoning_window4 hw
        rw [hww]
        exact hwin store cid rfl
      · exact ⟨_, double_add_user_mem store cid text n2 n3 now apologyNotice none, rfl, rfl, rfl⟩
  | none =>
    unfold handleChat
    simp only []
    cases outcome with
    | ok content reqs =>
      refine ⟨⟨_, rfl⟩, ?_, ?_⟩
      · intro w hw
        have hww := invokeReasoning_window executedTool_not_invokeReasoning hw
        rw [hww]
        exact hwin _ n1 rfl
      · exact ⟨_, double_add_user_mem _ n1 text n2 n3 now content _, rfl, rfl, rfl⟩
    | timeout =>
      refine ⟨⟨_, rfl⟩, ?_, ?_⟩
      · intro w hw
        have hww := invokeReasoning_window4 hw
        rw [hww]
        exact hwin _ n1 rfl
      · exact ⟨_, double_add_user_mem _ n1 text n2 n3 now apologyNotice none, rfl, rfl, rfl⟩
    | invalidResponse =>
      refine ⟨⟨_, rfl⟩, ?_, ?_⟩
      · intro w hw
        have hww := invokeReasoning_window4 hw
        rw [hww]
        exact hwin _ n1 rfl
      · exact ⟨_, double_add_user_mem _ n1 text n2 n3 now apologyNotice none, rfl, rfl, rfl⟩

/-- C5 witness: a concrete turn with an existing one-message conversation and
a Timeout outcome — the events begin load-context, persist-user,
invoke-reasoning; the window excludes the new user message; the user message
survives the failed turn. -/
theorem append_first_ordering_witness :
    (let c : Conversation := { id := 1, user_id := "alice", title := none,
                               created_at := 0, updated_at := 0 }
     let m0 : Message := { id := 5, conversation_id := 1, role := .user,
                           content := "old", tool_calls := none, created_at := 0 }
     let store : ChatStore := { conversations := [c], messages := [m0] }
     (verify_conversation_ownership store 1 "alice" = true) ∧
     (∃ w, (handleChat store [] "alice" "hi" (some 1) .timeout 7 8 9 10).events.take 3 =
       [.loadContext, .persistUserMessage, .invokeReasoning w]) ∧
     (∃ m ∈ (handleChat store [] "alice" "hi" (some 1) .timeout 7 8 9 10).store.messages,
       m.id = 8 ∧ m.role = .user ∧ m.content = "hi")) := by
  refine ⟨by decide, ?_, ?_⟩
  · exact (append_first_ordering _ [] "alice" "hi" (some 1) .timeout 7 8 9 10
      (by decide) (by decide)).1
  · exact (append_first_ordering _ [] "alice" "hi" (some 1) .timeout 7 8 9 10
      (by decide) (by decide)).2.2

theorem find?_map_update (cid now : Nat) :
    ∀ (l : List Conversation) (c : Conversation),
    l.find? (fun x => x.id == cid) = some c →
    (l.map (fun x => if x.id == cid then { x with updated_at := now } else x)).find?
      (fun x => x.id == cid) = some { c with updated_at := now } := by
  intro l
  induction l with
  | nil => intro c h; simp at h
  | cons a l ih =>
    intro c h
    by_cases hpa : (a.id == cid) = true
    · rw [@List.find?_cons_of_pos _ (fun x => x.id == cid) a l hpa] at h
      injection h with h
      subst h
      simp only [List.map_cons, hpa, if_true]
      exact @List.find?_cons_of_pos _ (fun x : Conversation => x.id == cid) _ _ hpa
    · rw [@List.find?_cons_of_neg _ (fun x => x.id == cid) a l hpa] at h
      simp only [List.map_cons, hpa, Bool.false_eq_true, if_false]
      rw [@List.find?_cons_of_neg _ (fun x => x.id == cid) a _ hpa]
      exact ih c h

/-- C6 counterexample: the claim says the recency-marker update is "an
atomic update-on-write rather than a read-modify-write"; but on a concrete
store `add_message` first reads the parent conversation row
(`session.get(Conversation, conversation_id)`) and then writes its
`updated_at` from the value computed in the application — the session trace
is insert, read, write-marker, commit, a read-modify-write. -/
theorem add_message_read_modify_write_counterexample :
    (add_message { conversations := [{ id := 1, user_id := "alice", title := none,
                                       created_at := 0, updated_at := 0 }],
                   messages := [] } 1 .user "hi" none 2 5).trace =
      [.insertMessage { id := 2, conversation_id := 1, role := .user,
                        content := "hi", tool_calls := none, created_at := 5 },
       .readConversation 1, .writeUpdatedAt 1 5, .commit] ∧
    readThenWritesMarker
      (add_message { conversations := [{ id := 1, user_id := "alice", title := none,
                                         created_at := 0, updated_at := 0 }],
                     messages := [] } 1 .user "hi" none 2 5).trace = true := by
  exact ⟨rfl, rfl⟩

theorem add_message_trace_of_found (store : ChatStore) (cid : Nat) (role : Role)
    (content : String) (tc : Option (List ToolRecord)) (nid now : Nat)
    (c : Conversation)
    (hc : store.conversations.find? (fun x => x.id == cid) = some c) :
    (add_message store cid role content tc nid now).trace =
      [.insertMessage (add_message store cid role content tc nid now).message,
       .readConversation cid, .writeUpdatedAt cid now, .commit] := by
  unfold add_message
  simp only [hc]

theorem add_message_conversations_of_found (store : ChatStore) (cid : Nat)
    (role : Role) (content : String) (tc : Option (List ToolRecord))
    (nid now : Nat) (c : Conversation)
    (hc : store.conversations.find? (fun x => x.id == cid) = some c) :
    (add_message store cid role content tc nid now).store.conversations =
      store.conversations.map
        (fun x => if x.id == cid then { x with updated_at := now } else x) := by
  unfold add_message
  simp only [hc]

/-- C6 (amended): when the parent conversation exists, `add_message` commits
exactly once, and that single commit publishes both the appended message and
the refreshed `updated_at` of the parent conversation — so no persisted
state has the message without the recency bump; the update is, however,
performed as a read-modify-write of the conversation row, not as an atomic
update-on-write. -/
theorem add_message_atomic_commit (store : ChatStore) (cid : Nat) (role : Role)
    (content : String) (tc : Option (List ToolRecord)) (nid now : Nat)
    (c : Conversation)
    (hc : store.conversations.find? (fun x => x.id == cid) = some c) :
    (add_message store cid role content tc nid now).trace.countP isCommit = 1 ∧
    (add_message store cid role content tc nid now).store.messages =
      store.messages ++ [(add_message store cid role content tc nid now).message] ∧
    (add_message store cid role content tc nid now).store.conversations.find?
      (fun x => x.id == cid) = some { c with updated_at := now } ∧
    readThenWritesMarker (add_message store cid role content tc nid now).trace = true := by
  rw [add_message_trace_of_found store cid role content tc nid now c hc]
  refine ⟨rfl, add_message_store_messages store cid role content tc nid now, ?_, rfl⟩
  rw [add_message_conversations_of_found store cid role content tc nid now c hc]
  exact find?_map_update cid now store.conversations c hc

/-- C6 witness: on a concrete one-conversation store, the append commits
once and the committed state carries both the message and the bumped
`updated_at`. -/
theorem add_message_atomic_commit_witness :
    (let store : ChatStore :=
      { conversations := [{ id := 1, user_id := "alice", title := none,
                            created_at := 0, updated_at := 0 }]
        messages := [] }
     store.conversations.find? (fun x => x.id == 1) =
       some { id := 1, user_id := "alice", title := none,
              created_at := 0, updated_at := 0 } ∧
     (add_message store 1 .user "hi" none 2 5).trace.countP isCommit = 1 ∧
     (add_message store 1 .user "hi" none 2 5).store.messages =
       store.messages ++ [(add_message store 1 .user "hi" none 2 5).message] ∧
     (add_message store 1 .user "hi" none 2 5).store.conversations.find?
       (fun x => x.id == 1) =
         some { id := 1, user_id := "alice", title := none,
                created_at := 0, updated_at := 5 }) := by
  refine ⟨by decide, ?_⟩
  have h := add_message_atomic_commit
    { conversations := [{ id := 1, user_id := "alice", title := none,
                          created_at := 0, updated_at := 0 }], messages := [] }
    1 .user "hi" none 2 5
    { id := 1, user_id := "alice", title := none, created_at := 0, updated_at := 0 }
    (by decide)
  exact ⟨h.1, h.2.1, h.2.2.1⟩

theorem jsTrim_length_le (s : List Char) : (jsTrim s).length ≤ s.length := by
  unfold jsTrim
  rw [List.length_reverse]
  calc ((s.dropWhile Char.isWhitespace).reverse.dropWhile Char.isWhitespace).length
      ≤ (s.dropWhile Char.isWhitespace).reverse.length :=
        (List.dropWhile_sublist _).length_le
    _ = (s.dropWhile Char.isWhitespace).length := List.length_reverse _
    _ ≤ s.length := (List.dropWhile_sublist _).length_le

theorem dropWhile_cons_of_neg {p : Char → Bool} {a : Char} (h : p a = false)
    (l : List Char) : (a :: l).dropWhile p = a :: l := by
  rw [List.dropWhile_cons, h]
  simp

theorem jsTrim_replicate_a (n : Nat) :
    jsTrim (List.replicate (n + 1) 'a') = List.replicate (n + 1) 'a' := by
  unfold jsTrim
  rw [List.replicate_succ, dropWhile_cons_of_neg (by decide), ← List.replicate_succ,
    List.reverse_replicate, List.replicate_succ, dropWhile_cons_of_neg (by decide),
    ← List.replicate_succ, List.reverse_replicate]

theorem stored_2001_eq :
    storedMessage (List.replicate 2001 'a') = List.replicate 2000 'a' := by
  unfold storedMessage chatInputLimit
  rw [List.take_replicate]
  norm_num

theorem submit_2001 :
    handleSubmit (storedMessage (List.replicate 2001 'a')) false false =
      some (List.replicate 2000 'a') := by
  have h2 : jsTrim (List.replicate 2000 'a') = List.replicate 2000 'a' := by
    have h := jsTrim_replicate_a 1999
    norm_num at h
    exact h
  rw [stored_2001_eq]
  simp only [handleSubmit]
  rw [h2, List.isEmpty_replicate]
  norm_num

/-- C7 counterexample: the claim says over-limit input is met "with a clear
rejection rather than silent truncation as the default"; but for a typed
message of 2001 characters the ChatInput stores the silently truncated
2000-character value and `handleSubmit` sends it onward — no rejection
occurs. -/
theorem chat_input_truncation_counterexample :
    (storedMessage (List.replicate 2001 'a')).length = 2000 ∧
    handleSubmit (storedMessage (List.replicate 2001 'a')) false false =
      some (List.replicate 2000 'a') := by
  refine ⟨?_, submit_2001⟩
  rw [stored_2001_eq, List.length_replicate]

/-- C7 (amended): the chat input enforces the fixed 2000-character bound by
truncation — the stored field value never exceeds 2000 characters
(`value.slice(0, 2000)` with `maxLength 2000`) and any message sent onward
never exceeds 2000 characters; over-limit input is silently truncated, not
rejected. -/
theorem chat_input_bound (typed : List Char) (isLoading disabled : Bool) :
    (storedMessage typed).length ≤ 2000 ∧
    (∀ m, handleSubmit (storedMessage typed) isLoading disabled = some m →
      m.length ≤ 2000) := by
  have hstored : (storedMessage typed).length ≤ 2000 := by
    unfold storedMessage chatInputLimit
    exact List.length_take_le _ _
  refine ⟨hstored, ?_⟩
  intro m hm
  simp only [handleSubmit] at hm
  split at hm
  · cases hm
    exact le_trans (jsTrim_length_le _) hstored
  · cases hm

/-- C7 witness: applying the bound to a 2001-character input — the truncated
stored value and the actually sent message both satisfy the 2000-character
bound. -/
theorem chat_input_bound_witness :
    (storedMessage (List.replicate 2001 'a')).length ≤ 2000 ∧
    (List.replicate 2000 'a').length ≤ 2000 :=
  ⟨(chat_input_bound (List.replicate 2001 'a') false false).1,
   (chat_input_bound (List.replicate 2001 'a') false false).2 _ submit_2001⟩

theorem le_foldr_max (l : List Nat) : ∀ x ∈ l, x ≤ l.foldr Nat.max 0 := by
  induction l with
  | nil => simp
  | cons a l ih =>
    intro x hx
    rcases List.mem_cons.mp hx with h | h
    · subst h
      exact Nat.le_max_left _ _
    · exact le_trans (ih x h) (Nat.le_max_right _ _)

theorem foldr_max_le (l : List Nat) (b : Nat) (h : ∀ x ∈ l, x ≤ b) :
    l.foldr Nat.max 0 ≤ b := by
  induction l with
  | nil => exact Nat.zero_le b
  | cons a l ih =>
    exact Nat.max_le.mpr ⟨h a (List.mem_cons_self a l),
      ih (fun x hx => h x (List.mem_cons.mpr (Or.inr hx)))⟩

theorem singleton_filter_best {C : List Task} {f : Task → Nat} {t : Task}
    (h : C.filter (fun x => f x == (C.map f).foldr Nat.max 0) = [t]) :
    t ∈ C ∧ (∀ u ∈ C, u ≠ t → f u < f t) := by
  have ht : t ∈ C.filter (fun x => f x == (C.map f).foldr Nat.max 0) := by
    rw [h]
    exact List.mem_cons_self t []
  have htc := (List.mem_filter.mp ht).1
  have htb : f t = (C.map f).foldr Nat.max 0 := beq_iff_eq.mp (List.mem_filter.mp ht).2
  refine ⟨htc, ?_⟩
  intro u hu hne
  have hub : f u ≤ (C.map f).foldr Nat.max 0 :=
    le_foldr_max (C.map f) _ (List.mem_map_of_mem f hu)
  rcases Nat.lt_or_ge (f u) ((C.map f).foldr Nat.max 0) with hlt | hge
  · rw [htb]
    exact hlt
  · have heq : f u = (C.map f).foldr Nat.max 0 := le_antisymm hub hge
    have hmem : u ∈ C.filter (fun x => f x == (C.map f).foldr Nat.max 0) :=
      List.mem_filter.mpr ⟨hu, beq_iff_eq.mpr heq⟩
    rw [h] at hmem
    rcases List.mem_cons.mp hmem with he | he
    · exact absurd he hne
    · exact absurd he (List.not_mem_nil u)

theorem filter_best_tie {C : List Task} {f : Task → Nat} {t1 t2 : Task}
    (h1 : t1 ∈ C) (h2 : t2 ∈ C) (hne : t1 ≠ t2)
    (hmax : ∀ u ∈ C, f u ≤ f t1) (heq2 : f t2 = f t1) :
    ∀ t, C.filter (fun x => f x == (C.map f).foldr Nat.max 0) ≠ [t] := by
  intro t hcontra
  have hbest : (C.map f).foldr Nat.max 0 = f t1 := by
    apply le_antisymm
    · apply foldr_max_le
      intro x hx
      rcases List.mem_map.mp hx with ⟨u, hu, hfu⟩
      rw [← hfu]
      exact hmax u hu
    · exact le_foldr_max _ _ (List.mem_map_of_mem f h1)
  have m1 : t1 ∈ C.filter (fun x => f x == (C.map f).foldr Nat.max 0) :=
    List.mem_filter.mpr ⟨h1, beq_iff_eq.mpr (by rw [hbest])⟩
  have m2 : t2 ∈ C.filter (fun x => f x == (C.map f).foldr Nat.max 0) :=
    List.mem_filter.mpr ⟨h2, beq_iff_eq.mpr (by rw [hbest]; exact heq2)⟩
  rw [hcontra] at m1 m2
  have e1 : t1 = t := by
    rcases List.mem_cons.mp m1 with he | he
    · exact he
    · exact absurd he (List.not_mem_nil _)
  have e2 : t2 = t := by
    rcases List.mem_cons.mp m2 with he | he
    · exact he
    · exact absurd he (List.not_mem_nil _)
  exact hne (e1.trans e2.symm)

theorem bestFuzzy_some {desc : String} {ts : List Task} {t : Task}
    (h : bestFuzzy desc ts = some t) :
    t ∈ ts ∧ fuzzyThreshold ≤ simScore desc t.title ∧
    ∀ u ∈ ts, u ≠ t → fuzzyThreshold ≤ simScore desc u.title →
      simScore desc u.title < simScore desc t.title := by
  simp only [bestFuzzy] at h
  split at h
  · next t2 heq =>
    injection h with h
    subst h
    have hspec := singleton_filter_best heq
    refine ⟨(List.mem_filter.mp hspec.1).1,
      of_decide_eq_true (List.mem_filter.mp hspec.1).2, ?_⟩
    intro u hu hne huθ
    have huc : u ∈ ts.filter (fun x => decide (fuzzyThreshold ≤ simScore desc x.title)) :=
      List.mem_filter.mpr ⟨hu, decide_eq_true huθ⟩
    exact hspec.2 u huc hne
  · next heq =>
    exact Option.noConfusion h

theorem bestFuzzy_none_of_no_candidate {desc : String} {ts : List Task}
    (h : ∀ u ∈ ts, simScore desc u.title < fuzzyThreshold) :
    bestFuzzy desc ts = none := by
  have hC : ts.filter (fun x => decide (fuzzyThreshold ≤ simScore desc x.title)) = [] :=
    List.filter_eq_nil_iff.mpr (fun u hu => by
      simp only [decide_eq_true_eq]
      exact Nat.not_le.mpr (h u hu))
  simp only [bestFuzzy, hC]
  rfl

theorem bestFuzzy_none_of_tie {desc : String} {ts : List Task} {t1 t2 : Task}
    (h1 : t1 ∈ ts) (h2 : t2 ∈ ts) (hne : t1 ≠ t2)
    (hθ1 : fuzzyThreshold ≤ simScore desc t1.title)
    (heq2 : simScore desc t2.title = simScore desc t1.title)
    (hmax : ∀ u ∈ ts, simScore desc u.title ≤ simScore desc t1.title) :
    bestFuzzy desc ts = none := by
  simp only [bestFuzzy]
  split
  · next t heq =>
    exfalso
    have h1c : t1 ∈ ts.filter (fun x => decide (fuzzyThreshold ≤ simScore desc x.title)) :=
      List.mem_filter.mpr ⟨h1, decide_eq_true hθ1⟩
    have h2c : t2 ∈ ts.filter (fun x => decide (fuzzyThreshold ≤ simScore desc x.title)) :=
      List.mem_filter.mpr ⟨h2, decide_eq_true (by rw [heq2]; exact hθ1)⟩
    have hmaxc : ∀ u ∈ ts.filter (fun x => decide (fuzzyThreshold ≤ simScore desc x.title)),
        simScore desc u.title ≤ simScore desc t1.title :=
      fun u hu => hmax u (List.mem_filter.mp hu).1
    exact filter_best_tie h1c h2c hne hmaxc heq2 t heq
  · next heq =>
    rfl

theorem matchTask_no_exact {desc : String} {ts : List Task}
    (hno : ∀ u ∈ ts, lowerEq u.title desc = false) :
    matchTask desc ts = bestFuzzy desc ts := by
  have hfe : ts.filter (fun t => lowerEq t.title desc) = [] :=
    List.filter_eq_nil_iff.mpr (fun u hu => by rw [hno u hu]; exact Bool.false_ne_true)
  unfold matchTask
  rw [hfe]

theorem matchTask_exact {desc : String} {ts : List Task}
    (hex : ∃ t ∈ ts, lowerEq t.title desc = true) :
    ∃ t, matchTask desc ts = some t ∧ t ∈ ts ∧ lowerEq t.title desc = true := by
  unfold matchTask
  cases hfe : ts.filter (fun t => lowerEq t.title desc) with
  | nil =>
    exfalso
    obtain ⟨t, ht, hl⟩ := hex
    have hmem : t ∈ ts.filter (fun t => lowerEq t.title desc) :=
      List.mem_filter.mpr ⟨ht, hl⟩
    rw [hfe] at hmem
    exact absurd hmem (List.not_mem_nil t)
  | cons t rest =>
    have hmem : t ∈ ts.filter (fun t => lowerEq t.title desc) := by
      rw [hfe]
      exact List.mem_cons_self t rest
    exact ⟨t, rfl, (List.mem_filter.mp hmem).1, (List.mem_filter.mp hmem).2⟩

/-- C8: the lookup-by-description matching policy is deterministic — an
exact case-insensitive title match is chosen when one exists; otherwise any
chosen task is a candidate at or above the fixed similarity threshold whose
score strictly beats every other candidate (single best); if no candidate
reaches the threshold, or two candidates tie for the best score, the match
is empty and the complete/delete tools return `NotFound` without mutating
any task. -/
theorem lookup_matching_policy (desc : String) (ts : List Task)
    (caller : String) (input : ToolInput) (tasks : List Task) (now : Nat)
    (hdesc : getField input "description" = some desc)
    (hnone : matchTask desc (tasks.filter (fun x => x.user_id == caller)) = none) :
    ((∃ t ∈ ts, lowerEq t.title desc = true) →
      ∃ t, matchTask desc ts = some t ∧ t ∈ ts ∧ lowerEq t.title desc = true) ∧
    ((∀ u ∈ ts, lowerEq u.title desc = false) → ∀ t, matchTask desc ts = some t →
      t ∈ ts ∧ fuzzyThreshold ≤ simScore desc t.title ∧
      ∀ u ∈ ts, u ≠ t → fuzzyThreshold ≤ simScore desc u.title →
        simScore desc u.title < simScore desc t.title) ∧
    ((∀ u ∈ ts, lowerEq u.title desc = false) →
      (∀ u ∈ ts, simScore desc u.title < fuzzyThreshold) →
      matchTask desc ts = none) ∧
    (∀ t1 t2, (∀ u ∈ ts, lowerEq u.title desc = false) → t1 ∈ ts → t2 ∈ ts →
      t1 ≠ t2 → fuzzyThreshold ≤ simScore desc t1.title →
      simScore desc t2.title = simScore desc t1.title →
      (∀ u ∈ ts, simScore desc u.title ≤ simScore desc t1.title) →
      matchTask desc ts = none) ∧
    executeTool caller .complete_task input tasks now = (.notFound, tasks) ∧
    executeTool caller .delete_task input tasks now = (.notFound, tasks) := by
  refine ⟨matchTask_exact, ?_, ?_, ?_, ?_, ?_⟩
  · intro hno t hsome
    rw [matchTask_no_exact hno] at hsome
    exact bestFuzzy_some hsome
  · intro hno hsc
    rw [matchTask_no_exact hno]
    exact bestFuzzy_none_of_no_candidate hsc
  · intro t1 t2 hno h1 h2 hne hθ1 heq2 hmax
    rw [matchTask_no_exact hno]
    exact bestFuzzy_none_of_tie h1 h2 hne hθ1 heq2 hmax
  · simp only [executeTool, hdesc, hnone]
  · simp only [executeTool, hdesc, hnone]

/-- C8 witness: with an empty task list, looking up "buy milk" finds nothing
and both mutating lookup tools return `NotFound` leaving the (empty) task
store unchanged. -/
theorem lookup_matching_policy_witness :
    getField [("description", "buy milk")] "description" = some "buy milk" ∧
    matchTask "buy milk" (List.filter (fun x => x.user_id == "alice") []) = none ∧
    executeTool "alice" .complete_task [("description", "buy milk")] [] 0 =
      (.notFound, []) ∧
    executeTool "alice" .delete_task [("description", "buy milk")] [] 0 =
      (.notFound, []) :=
  ⟨rfl, rfl,
   (lookup_matching_policy "buy milk" [] "alice" [("description", "buy milk")] [] 0
     rfl rfl).2.2.2.2.1,
   (lookup_matching_policy "buy milk" [] "alice" [("description", "buy milk")] [] 0
     rfl rfl).2.2.2.2.2⟩

theorem executedTool_user {w0 : List Message} {mid : List TurnEvent}
    {nm : ToolName} {u caller : String}
    (hmid : ∀ e ∈ mid, e = TurnEvent.executedTool nm u → u = caller)
    (h : TurnEvent.executedTool nm u ∈
      [TurnEvent.loadContext, TurnEvent.persistUserMessage,
       TurnEvent.invokeReasoning w0] ++ mid ++ [TurnEvent.persistAssistantMessage]) :
    u = caller := by
  rcases List.mem_append.mp h with h1 | h2
  · rcases List.mem_append.mp h1 with h3 | h4
    · rcases List.mem_cons.mp h3 with he | h3
      · exact absurd he (by simp)
      rcases List.mem_cons.mp h3 with he | h3
      · exact absurd he (by simp)
      rcases List.mem_cons.mp h3 with he | h3
      · exact absurd he (by simp)
      · exact absurd h3 (List.not_mem_nil _)
    · exact hmid _ h4 rfl
  · rcases List.mem_cons.mp h2 with he | h2
    · exact absurd he (by simp)
    · exact absurd h2 (List.not_mem_nil _)

theorem executedTool_not_mem4 {w0 : List Message} {nm : ToolName} {u : String}
    (h : TurnEvent.executedTool nm u ∈
      [TurnEvent.loadContext, TurnEvent.persistUserMessage,
       TurnEvent.invokeReasoning w0, TurnEvent.persistAssistantMessage]) :
    False := by
  rcases List.mem_cons.mp h with he | h
  · exact absurd he (by simp)
  rcases List.mem_cons.mp h with he | h
  · exact absurd he (by simp)
  rcases List.mem_cons.mp h with he | h
  · exact absurd he (by simp)
  rcases List.mem_cons.mp h with he | h
  · exact absurd he (by simp)
  · exact absurd h (List.not_mem_nil _)

/-- C2: identity injection — no tool declares a user-identity input field;
tool execution reads only declared fields, so two payloads that differ only
in an embedded (forged) "user_id" field execute identically; every task the
execution leaves in the store either was already there or belongs to the
authenticated caller; and every tool-execution event of a turn acts under
the orchestrator-injected caller identity, never an identity taken from the
reasoning output. -/
theorem tool_identity_injection (caller : String) (n : ToolName)
    (i1 i2 : ToolInput) (ts : List Task) (now : Nat)
    (hagree : ∀ k, k ≠ "user_id" → getField i1 k = getField i2 k) :
    (∀ nm : ToolName, ¬ "user_id" ∈ declaredFields nm) ∧
    executeTool caller n i1 ts now = executeTool caller n i2 ts now ∧
    (∀ t ∈ (executeTool caller n i1 ts now).2, t ∈ ts ∨ t.user_id = caller) ∧
    (∀ (store : ChatStore) (tasks : List Task) (text : String)
       (cid? : Option Nat) (outcome : AgentOutcome) (n1 n2 n3 now2 : Nat)
       (nm : ToolName) (u : String),
      TurnEvent.executedTool nm u ∈
        (handleChat store tasks caller text cid? outcome n1 n2 n3 now2).events →
      u = caller) := by
  refine ⟨?_, ?_, ?_, ?_⟩
  · intro nm
    cases nm <;> decide
  · have h1 := hagree "title" (by decide)
    have h2 := hagree "description" (by decide)
    have h3 := hagree "filter" (by decide)
    cases n <;> simp only [executeTool, h1, h2, h3]
  · intro t ht
    cases n with
    | add_task =>
      simp only [executeTool] at ht
      cases hgf : getField i1 "title" with
      | none =>
        simp only [hgf] at ht
        exact Or.inl ht
      | some title =>
        simp only [hgf] at ht
        rcases List.mem_append.mp ht with h | h
        · exact Or.inl h
        · rcases List.mem_cons.mp h with he | he
          · rw [he]
            exact Or.inr rfl
          · exact absurd he (List.not_mem_nil t)
    | list_tasks =>
      simp only [executeTool] at ht
      exact Or.inl ht
    | complete_task =>
      simp only [executeTool] at ht
      cases hgf : getField i1 "description" with
      | none =>
        simp only [hgf] at ht
        exact Or.inl ht
      | some d =>
        simp only [hgf] at ht
        cases hmt : matchTask d (ts.filter (fun x => x.user_id == caller)) with
        | none =>
          simp only [hmt] at ht
          exact Or.inl ht
        | some t0 =>
          simp only [hmt, applyComplete] at ht
          rcases List.mem_map.mp ht with ⟨x, hx, hfx⟩
          by_cases hcond : (x.id == t0.id && x.user_id == caller) = true
          · rw [if_pos hcond] at hfx
            rw [← hfx]
            rw [Bool.and_eq_true] at hcond
            exact Or.inr (beq_iff_eq.mp hcond.2)
          · rw [if_neg hcond] at hfx
            rw [← hfx]
            exact Or.inl hx
    | delete_task =>
      simp only [executeTool] at ht
      cases hgf : getField i1 "description" with
      | none =>
        simp only [hgf] at ht
        exact Or.inl ht
      | some d =>
        simp only [hgf] at ht
        cases hmt : matchTask d (ts.filter (fun x => x.user_id == caller)) with
        | none =>
          simp only [hmt] at ht
          exact Or.inl ht
        | some t0 =>
          simp only [hmt] at ht
          exact Or.inl (List.mem_filter.mp ht).1
    | update_task =>
      simp only [executeTool] at ht
      cases hgf : getField i1 "description" with
      | none =>
        simp only [hgf] at ht
        exact Or.inl ht
      | some d =>
        simp only [hgf] at ht
        cases hmt : matchTask d (ts.filter (fun x => x.user_id == caller)) with
        | none =>
          simp only [hmt] at ht
          exact Or.inl ht
        | some t0 =>
          simp only [hmt, applyRetitle] at ht
          rcases List.mem_map.mp ht with ⟨x, hx, hfx⟩
          by_cases hcond : (x.id == t0.id && x.user_id == caller) = true
          · rw [if_pos hcond] at hfx
            rw [← hfx]
            rw [Bool.and_eq_true] at hcond
            exact Or.inr (beq_iff_eq.mp hcond.2)
          · rw [if_neg hcond] at hfx
            rw [← hfx]
            exact Or.inl hx
  · intro store2 tasks2 text cid? outcome n1 n2 n3 now2 nm u hmem
    have hmid : ∀ (records : List ToolRecord) (e : TurnEvent),
        e ∈ records.map (fun rec => TurnEvent.executedTool rec.name caller) →
        e = TurnEvent.executedTool nm u → u = caller := by
      intro records e he heq
      rcases List.mem_map.mp he with ⟨r, _, hre⟩
      rw [← hre] at heq
      injection heq with hh1 hh2
      exact hh2.symm
    cases cid? with
    | some cid =>
      by_cases hv : verify_conversation_ownership store2 cid caller = true
      · unfold handleChat at hmem
        simp only [hv, if_true] at hmem
        cases outcome with
        | ok content reqs => exact executedTool_user (hmid _) hmem
        | timeout => exact absurd hmem (fun h => executedTool_not_mem4 h)
        | invalidResponse => exact absurd hmem (fun h => executedTool_not_mem4 h)
      · unfold handleChat at hmem
        simp only [Bool.not_eq_true] at hv
        simp only [hv, Bool.false_eq_true, if_false] at hmem
        exact absurd hmem (List.not_mem_nil _)
    | none =>
      unfold handleChat at hmem
      simp only [] at hmem
      cases outcome with
      | ok content reqs => exact executedTool_user (hmid _) hmem
      | timeout => exact absurd hmem (fun h => executedTool_not_mem4 h)
      | invalidResponse => exact absurd hmem (fun h => executedTool_not_mem4 h)

/-- C2 witness: the add-task tool run with a payload carrying a forged
"user_id" field behaves exactly as without it, and the created task belongs
to the authenticated caller. -/
theorem tool_identity_injection_witness :
    (∀ k, k ≠ "user_id" →
      getField [("title", "buy milk")] k =
        getField [("title", "buy milk"), ("user_id", "mallory")] k) ∧
    executeTool "alice" .add_task [("title", "buy milk")] [] 0 =
      executeTool "alice" .add_task [("title", "buy milk"), ("user_id", "mallory")] [] 0 ∧
    (∀ t ∈ (executeTool "alice" .add_task [("title", "buy milk")] [] 0).2,
      t ∈ ([] : List Task) ∨ t.user_id = "alice") := by
  have hagree : ∀ k, k ≠ "user_id" →
      getField [("title", "buy milk")] k =
        getField [("title", "buy milk"), ("user_id", "mallory")] k := by
    intro k hk
    by_cases ht : ("title" == k) = true
    · simp only [getField, List.find?_cons, ht]
    · have hu : ("user_id" == k) = false :=
        beq_eq_false_iff_ne.mpr (fun h => hk h.symm)
      simp only [getField, List.find?_cons, ht, hu]
  refine ⟨hagree, ?_, ?_⟩
  · exact (tool_identity_injection "alice" .add_task [("title", "buy milk")]
      [("title", "buy milk"), ("user_id", "mallory")] [] 0 hagree).2.1
  · exact (tool_identity_injection "alice" .add_task [("title", "buy milk")]
      [("title", "buy milk"), ("user_id", "mallory")] [] 0 hagree).2.2.1

/-- C3: anti-enumeration — for users A ≠ B, a turn (or ownership check)
submitted by A against a conversation owned by B yields the very same
"not found" outcome as a turn against a nonexistent conversation id; the
existence of the foreign conversation is not distinguishable from
non-existence in the caller-visible result. -/
theorem anti_enumeration (store : ChatStore) (tasks : List Task) (A B : String)
    (cid cid' : Nat) (c : Conversation) (text : String) (outcome : AgentOutcome)
    (n1 n2 n3 now : Nat)
    (hfind : store.conversations.find? (fun x => x.id == cid) = some c)
    (howner : c.user_id = B) (hne : A ≠ B)
    (hmiss : store.conversations.find? (fun x => x.id == cid') = none) :
    verify_conversation_ownership store cid A = false ∧
    verify_conversation_ownership store cid' A = false ∧
    handleChat store tasks A text (some cid) outcome n1 n2 n3 now =
      handleChat store tasks A text (some cid') outcome n1 n2 n3 now := by
  have h1 : verify_conversation_ownership store cid A = false := by
    unfold verify_conversation_ownership
    rw [hfind]
    exact beq_eq_false_iff_ne.mpr (by rw [howner]; exact fun h => hne h.symm)
  have h2 : verify_conversation_ownership store cid' A = false := by
    unfold verify_conversation_ownership
    rw [hmiss]
  refine ⟨h1, h2, ?_⟩
  unfold handleChat
  simp only [h1, h2, Bool.false_eq_true, if_false]

/-- C3 witness: a concrete two-user store where Alice probing Bob's
conversation and probing a nonexistent conversation id get identical
results. -/
theorem anti_enumeration_witness :
    (let store : ChatStore :=
      { conversations := [{ id := 7, user_id := "bob", title := none,
                            created_at := 0, updated_at := 0 }]
        messages := [] }
     verify_conversation_ownership store 7 "alice" = false ∧
     verify_conversation_ownership store 99 "alice" = false ∧
     handleChat store [] "alice" "hi" (some 7) .timeout 1 2 3 4 =
       handleChat store [] "alice" "hi" (some 99) .timeout 1 2 3 4) :=
  anti_enumeration _ [] "alice" "bob" 7 99
    { id := 7, user_id := "bob", title := none, created_at := 0, updated_at := 0 }
    "hi" .timeout 1 2 3 4 (by decide) rfl (by decide) (by decide)

/-- C9: frame property of the conversation-store access layer — listing a
user's conversations and fetching recent messages return the store
unchanged, appending a message only extends the messages table (every
previously persisted message is kept, unchanged and in place), and creating
a conversation leaves the messages table untouched. -/
theorem message_immutability (store : ChatStore) (uid : String)
    (title : Option String) (cid limit : Nat) (role : Role) (content : String)
    (tc : Option (List ToolRecord)) (nid mid now : Nat) :
    (get_user_conversations_op store uid).2 = store ∧
    (get_conversation_messages_op store cid limit).2 = store ∧
    (∃ tail, (add_message store cid role content tc mid now).store.messages =
      store.messages ++ tail) ∧
    (create_conversation store uid title nid now).2.messages = store.messages := by
  refine ⟨rfl, rfl, ?_, rfl⟩
  unfold add_message
  cases store.conversations.find? (fun c => c.id == cid) <;> exact ⟨_, rfl⟩

/-- C10: optimistic-UI rollback — when the send fails, removing the
provisional user message restores the displayed list to its exact pre-send
state; on success the provisional message is replaced by the final user
message followed by the returned assistant message. -/
theorem optimistic_rollback (prev : List FMessage)
    (temp finalUser assistantMsg : FMessage)
    (hfresh : ∀ m ∈ prev, m.id ≠ temp.id) :
    onSendError (optimisticAppend prev temp) temp.id = prev ∧
    onSendSuccess (optimisticAppend prev temp) temp.id finalUser assistantMsg =
      prev ++ [finalUser, assistantMsg] := by
  have hfilter : prev.filter (fun m => m.id != temp.id) = prev :=
    List.filter_eq_self.mpr (fun m hm => by
      simpa using hfresh m hm)
  constructor
  · unfold onSendError optimisticAppend
    rw [List.filter_append, hfilter]
    simp
  · unfold onSendSuccess optimisticAppend
    rw [List.filter_append, hfilter]
    simp

/-- C10 witness: a concrete pre-send list with one server message; the error
path restores it and the success path appends the final pair. -/
theorem optimistic_rollback_witness :
    (let prev : List FMessage := [{ id := "m1", role := .assistant, content := "hello",
                                    created_at := 0 }]
     let temp : FMessage := { id := "temp-1", role := .user, content := "add milk",
                              created_at := 1 }
     let fin : FMessage := { id := "user-2", role := .user, content := "add milk",
                             created_at := 2 }
     let asst : FMessage := { id := "m2", role := .assistant, content := "done",
                              created_at := 3 }
     onSendError (optimisticAppend prev temp) temp.id = prev ∧
     onSendSuccess (optimisticAppend prev temp) temp.id fin asst =
       prev ++ [fin, asst]) :=
  optimistic_rollback _ _ _ _ (by decide)

end TodoChat

